import Mathlib

/-!
Verification of the quantum-math core of a Bloch-sphere visualization library.

The embedded functions mirror `src/utils/quantum-math.ts` (coordinate
converters and SLERP) and the animation hook in `useAnimation`.  JavaScript
doubles are modelled by exact real numbers `ℝ`; `Math.sqrt`, `Math.acos`,
`Math.sin`, `Math.cos` become `Real.sqrt`, `Real.arccos`, `Real.sin`,
`Real.cos`, and `Math.atan2 y x` becomes the complex argument of `x + y*I`
(identical on all real inputs; reals have no signed zero, NaN or infinity).
Under this model every "up to floating-point tolerance" contract of the
specification is settled by exact equality.
-/

namespace QuantumMath

open Real

/-- Mirrors the source type `Complex`: a real/imaginary pair. -/
structure ComplexNum where
  real : ℝ
  imag : ℝ

/-- Mirrors `ComplexAmplitude`: the state alpha|0> + beta|1>. -/
structure ComplexAmplitude where
  alpha : ComplexNum
  beta : ComplexNum

/-- Mirrors `SphericalCoordinates`: polar angle theta, azimuthal angle phi. -/
structure SphericalCoordinates where
  theta : ℝ
  phi : ℝ

/-- Mirrors `CartesianCoordinates`. -/
structure CartesianCoordinates where
  x : ℝ
  y : ℝ
  z : ℝ

/-- Model of `Math.atan2 y x`: the argument of the complex number `x + y*I`,
with range `(-π, π]` and `atan2 0 0 = 0`, exactly as in JavaScript on
non-exceptional inputs. -/
noncomputable def atan2 (y x : ℝ) : ℝ := Complex.arg (x + y * Complex.I)

/-- Effect of the source's phi-normalization loops
(`while (phi < 0) phi += 2*PI; while (phi >= 2*PI) phi -= 2*PI`) at their two
call sites.  Both sites feed a difference or value of `atan2` results, which
lies in `(-2π, 2π)`, so the add-loop runs at most once and the subtract-loop
never runs; the loops reduce to a single conditional addition of `2π`. -/
noncomputable def normalizePhi (p : ℝ) : ℝ := if p < 0 then p + 2 * π else p

/-- Local `alphaMag` of `amplitudesToSpherical`. -/
noncomputable def alphaMag (amp : ComplexAmplitude) : ℝ :=
  Real.sqrt (amp.alpha.real ^ 2 + amp.alpha.imag ^ 2)

/-- Local `betaMag` of `amplitudesToSpherical`. -/
noncomputable def betaMag (amp : ComplexAmplitude) : ℝ :=
  Real.sqrt (amp.beta.real ^ 2 + amp.beta.imag ^ 2)

/-- Local `norm` of `amplitudesToSpherical`. -/
noncomputable def ampNorm (amp : ComplexAmplitude) : ℝ :=
  Real.sqrt (alphaMag amp ^ 2 + betaMag amp ^ 2)

/-- Mirrors `amplitudesToSpherical`:
theta = 2*acos(clamp(|alpha|/norm, 0, 1)), phi = arg(beta) - arg(alpha)
normalized into [0, 2π); the zero state maps to the north pole. -/
noncomputable def amplitudesToSpherical (amp : ComplexAmplitude) :
    SphericalCoordinates :=
  if ampNorm amp = 0 then ⟨0, 0⟩
  else
    ⟨2 * Real.arccos (min 1 (max 0 (alphaMag amp / ampNorm amp))),
     normalizePhi (atan2 amp.beta.imag amp.beta.real -
       atan2 amp.alpha.imag amp.alpha.real)⟩

/-- Mirrors `sphericalToAmplitudes`:
alpha = (cos(theta/2), 0), beta = sin(theta/2) * (cos phi, sin phi). -/
noncomputable def sphericalToAmplitudes (coords : SphericalCoordinates) :
    ComplexAmplitude :=
  ⟨⟨Real.cos (coords.theta / 2), 0⟩,
   ⟨Real.sin (coords.theta / 2) * Real.cos coords.phi,
    Real.sin (coords.theta / 2) * Real.sin coords.phi⟩⟩

/-- Mirrors `sphericalToCartesian`. -/
noncomputable def sphericalToCartesian (coords : SphericalCoordinates) :
    CartesianCoordinates :=
  ⟨Real.sin coords.theta * Real.cos coords.phi,
   Real.sin coords.theta * Real.sin coords.phi,
   Real.cos coords.theta⟩

/-- Mirrors `cartesianToSpherical`:
r = |v|; zero vector maps to the north pole; theta = acos(clamp(z/r, -1, 1));
phi = atan2(y, x) normalized into [0, 2π). -/
noncomputable def cartesianToSpherical (cart : CartesianCoordinates) :
    SphericalCoordinates :=
  if Real.sqrt (cart.x ^ 2 + cart.y ^ 2 + cart.z ^ 2) = 0 then ⟨0, 0⟩
  else
    ⟨Real.arccos (min 1 (max (-1)
        (cart.z / Real.sqrt (cart.x ^ 2 + cart.y ^ 2 + cart.z ^ 2)))),
     normalizePhi (atan2 cart.y cart.x)⟩

/-- Local `dot` of `slerp`: dot product of the two Cartesian images. -/
noncomputable def slerpDot (s e : SphericalCoordinates) : ℝ :=
  (sphericalToCartesian s).x * (sphericalToCartesian e).x +
  (sphericalToCartesian s).y * (sphericalToCartesian e).y +
  (sphericalToCartesian s).z * (sphericalToCartesian e).z

/-- Local `omega` of `slerp`: `acos(max(-1, min(1, dot)))`. -/
noncomputable def slerpOmega (s e : SphericalCoordinates) : ℝ :=
  Real.arccos (max (-1) (min 1 (slerpDot s e)))

/-- The guard of `slerp`'s linear-interpolation fallback branch. -/
noncomputable def slerpUsesFallback (s e : SphericalCoordinates) : Prop :=
  |slerpOmega s e| < 0.0001

noncomputable instance (s e : SphericalCoordinates) :
    Decidable (slerpUsesFallback s e) := by
  unfold slerpUsesFallback; infer_instance

/-- Mirrors `slerp`: spherical linear interpolation via Cartesian vectors,
with a componentwise linear fallback when `|omega| < 0.0001`. -/
noncomputable def slerp (start stop : SphericalCoordinates) (t : ℝ) :
    SphericalCoordinates :=
  if slerpUsesFallback start stop then
    ⟨start.theta + t * (stop.theta - start.theta),
     start.phi + t * (stop.phi - start.phi)⟩
  else
    cartesianToSpherical
      ⟨(Real.sin ((1 - t) * slerpOmega start stop) /
          Real.sin (slerpOmega start stop)) * (sphericalToCartesian start).x +
        (Real.sin (t * slerpOmega start stop) /
          Real.sin (slerpOmega start stop)) * (sphericalToCartesian stop).x,
       (Real.sin ((1 - t) * slerpOmega start stop) /
          Real.sin (slerpOmega start stop)) * (sphericalToCartesian start).y +
        (Real.sin (t * slerpOmega start stop) /
          Real.sin (slerpOmega start stop)) * (sphericalToCartesian stop).y,
       (Real.sin ((1 - t) * slerpOmega start stop) /
          Real.sin (slerpOmega start stop)) * (sphericalToCartesian start).z +
        (Real.sin (t * slerpOmega start stop) /
          Real.sin (slerpOmega start stop)) * (sphericalToCartesian stop).z⟩

/-- Sum of squares of `sphericalToCartesian` is exactly 1 for every input:
sin²θ(cos²φ + sin²φ) + cos²θ = 1. -/
theorem normSq_sphericalToCartesian (c : SphericalCoordinates) :
    (sphericalToCartesian c).x ^ 2 + (sphericalToCartesian c).y ^ 2 +
      (sphericalToCartesian c).z ^ 2 = 1 := by
  simp only [sphericalToCartesian]
  nlinarith [Real.sin_sq_add_cos_sq c.theta, Real.sin_sq_add_cos_sq c.phi]

/-- C6: for every spherical input, `sphericalToCartesian` returns a vector
with `x² + y² + z² = 1` exactly in the real-number model; exact equality is
in particular within the claimed `1e-9` tolerance, for all theta and phi
(so in particular for theta in [0, π] and phi in [0, 2π)). -/
theorem sphericalToCartesian_unit_norm (c : SphericalCoordinates) :
    (sphericalToCartesian c).x ^ 2 + (sphericalToCartesian c).y ^ 2 +
      (sphericalToCartesian c).z ^ 2 = 1 :=
  normSq_sphericalToCartesian c

/-- C10: `sphericalToAmplitudes` always returns a normalized amplitude pair,
|alpha|² + |beta|² = cos²(θ/2) + sin²(θ/2)(cos²φ + sin²φ) = 1 exactly, and
alpha's imaginary part is identically zero. -/
theorem sphericalToAmplitudes_normalized (c : SphericalCoordinates) :
    (sphericalToAmplitudes c).alpha.real ^ 2 +
        (sphericalToAmplitudes c).alpha.imag ^ 2 +
        ((sphericalToAmplitudes c).beta.real ^ 2 +
          (sphericalToAmplitudes c).beta.imag ^ 2) = 1 ∧
      (sphericalToAmplitudes c).alpha.imag = 0 := by
  constructor
  · simp only [sphericalToAmplitudes]
    nlinarith [Real.sin_sq_add_cos_sq (c.theta / 2),
      Real.sin_sq_add_cos_sq c.phi]
  · rfl

/-- C8: the converters are total functions with defined fallbacks: the
all-zero amplitude pair maps to the north pole {theta = 0, phi = 0}, and the
zero Cartesian vector maps to {theta = 0, phi = 0}. -/
theorem degenerate_inputs_map_to_north_pole :
    amplitudesToSpherical ⟨⟨0, 0⟩, ⟨0, 0⟩⟩ = ⟨0, 0⟩ ∧
      cartesianToSpherical ⟨0, 0, 0⟩ = ⟨0, 0⟩ := by
  constructor
  · have h : ampNorm ⟨⟨0, 0⟩, ⟨0, 0⟩⟩ = 0 := by
      simp [ampNorm, alphaMag, betaMag]
    simp [amplitudesToSpherical, h]
  · simp [cartesianToSpherical]

/-- For `k > 0` and `φ ∈ [0, 2π)`, `atan2 (k sin φ) (k cos φ)` recovers `φ`
up to the branch cut: it equals `φ` when `φ ≤ π` and `φ - 2π` otherwise. -/
theorem atan2_scaled (k φ : ℝ) (hk : 0 < k) (h1 : 0 ≤ φ) (h2 : φ < 2 * π) :
    atan2 (k * Real.sin φ) (k * Real.cos φ) =
      if φ ≤ π then φ else φ - 2 * π := by
  have hmk : (↑(k * Real.cos φ) + ↑(k * Real.sin φ) * Complex.I) =
      (k : ℂ) * (Real.cos φ + Real.sin φ * Complex.I) := by push_cast; ring
  unfold atan2
  rw [hmk, Complex.arg_real_mul _ hk]
  by_cases hφ : φ ≤ π
  · rw [if_pos hφ, Complex.ofReal_cos, Complex.ofReal_sin]
    exact Complex.arg_cos_add_sin_mul_I
      (Set.mem_Ioc.mpr ⟨by linarith [Real.pi_pos], hφ⟩)
  · rw [if_neg hφ]
    push_neg at hφ
    rw [← Real.cos_sub_two_pi φ, ← Real.sin_sub_two_pi φ,
      Complex.ofReal_cos, Complex.ofReal_sin]
    exact Complex.arg_cos_add_sin_mul_I
      (Set.mem_Ioc.mpr ⟨by linarith, by linarith [Real.pi_pos]⟩)

/-- The phi-normalization applied to `atan2` of a positively scaled
cosine/sine pair recovers the original angle in `[0, 2π)`. -/
theorem normalizePhi_atan2_scaled (k φ : ℝ) (hk : 0 < k) (h1 : 0 ≤ φ)
    (h2 : φ < 2 * π) :
    normalizePhi (atan2 (k * Real.sin φ) (k * Real.cos φ)) = φ := by
  rw [atan2_scaled k φ hk h1 h2]
  unfold normalizePhi
  by_cases hφ : φ ≤ π
  · rw [if_pos hφ, if_neg (not_lt.mpr h1)]
  · rw [if_neg hφ]
    push_neg at hφ
    rw [if_pos (by linarith)]
    ring

/-- Roundtrip of the Cartesian conversion away from the poles. -/
theorem roundtrip_spherical_cartesian (θ φ : ℝ)
    (hθ0 : 0 < θ) (hθπ : θ < π) (hφ0 : 0 ≤ φ) (hφ2 : φ < 2 * π) :
    cartesianToSpherical (sphericalToCartesian ⟨θ, φ⟩) = ⟨θ, φ⟩ := by
  have hs : 0 < Real.sin θ := Real.sin_pos_of_pos_of_lt_pi hθ0 hθπ
  have hnorm : (Real.sin θ * Real.cos φ) ^ 2 + (Real.sin θ * Real.sin φ) ^ 2 +
      Real.cos θ ^ 2 = 1 := by
    nlinarith [Real.sin_sq_add_cos_sq θ, Real.sin_sq_add_cos_sq φ]
  have hr1 : Real.sqrt ((Real.sin θ * Real.cos φ) ^ 2 +
      (Real.sin θ * Real.sin φ) ^ 2 + Real.cos θ ^ 2) = 1 := by
    rw [hnorm]; exact Real.sqrt_one
  simp only [sphericalToCartesian, cartesianToSpherical]
  rw [hr1, if_neg one_ne_zero]
  simp only [SphericalCoordinates.mk.injEq]
  constructor
  · rw [div_one, max_eq_right (Real.neg_one_le_cos θ),
      min_eq_right (Real.cos_le_one θ)]
    exact Real.arccos_cos hθ0.le hθπ.le
  · exact normalizePhi_atan2_scaled (Real.sin θ) φ hs hφ0 hφ2

/-- C1: for theta strictly between 0 and π (away from the poles) and
phi in [0, 2π), converting to Cartesian and back returns the original
spherical pair exactly in the real-number model (hence within the claimed
1e-6 tolerance).  At the poles phi is not recovered, as the claim allows. -/
theorem cartesian_spherical_roundtrip (θ φ : ℝ)
    (hθ0 : 0 < θ) (hθπ : θ < π) (hφ0 : 0 ≤ φ) (hφ2 : φ < 2 * π) :
    cartesianToSpherical (sphericalToCartesian ⟨θ, φ⟩) = ⟨θ, φ⟩ :=
  roundtrip_spherical_cartesian θ φ hθ0 hθπ hφ0 hφ2

/-- Witness for C1 at theta = π/2, phi = π/2. -/
theorem cartesian_spherical_roundtrip_witness :
    cartesianToSpherical (sphericalToCartesian ⟨π / 2, π / 2⟩) =
      ⟨π / 2, π / 2⟩ :=
  cartesian_spherical_roundtrip (π / 2) (π / 2) (by positivity)
    (by linarith [Real.pi_pos]) (by positivity) (by linarith [Real.pi_pos])

/-- C2: for theta strictly between 0 and π and phi in [0, 2π), converting to
amplitudes and back returns the original spherical pair exactly in the
real-number model (the global phase is fixed: alpha is real and positive
away from the south pole). -/
theorem amplitude_spherical_roundtrip (θ φ : ℝ)
    (hθ0 : 0 < θ) (hθπ : θ < π) (hφ0 : 0 ≤ φ) (hφ2 : φ < 2 * π) :
    amplitudesToSpherical (sphericalToAmplitudes ⟨θ, φ⟩) = ⟨θ, φ⟩ := by
  have hc : 0 < Real.cos (θ / 2) :=
    Real.cos_pos_of_mem_Ioo
      (Set.mem_Ioo.mpr ⟨by linarith [Real.pi_pos], by linarith⟩)
  have hs : 0 < Real.sin (θ / 2) :=
    Real.sin_pos_of_pos_of_lt_pi (by linarith) (by linarith [Real.pi_pos])
  have hA : alphaMag (sphericalToAmplitudes ⟨θ, φ⟩) = Real.cos (θ / 2) := by
    simp only [alphaMag, sphericalToAmplitudes]
    rw [show ((0 : ℝ)) ^ 2 = 0 by norm_num, add_zero, Real.sqrt_sq hc.le]
  have hB : betaMag (sphericalToAmplitudes ⟨θ, φ⟩) = Real.sin (θ / 2) := by
    simp only [betaMag, sphericalToAmplitudes]
    have hsum : (Real.sin (θ / 2) * Real.cos φ) ^ 2 +
        (Real.sin (θ / 2) * Real.sin φ) ^ 2 = Real.sin (θ / 2) ^ 2 := by
      nlinarith [Real.sin_sq_add_cos_sq φ]
    rw [hsum, Real.sqrt_sq hs.le]
  have hN : ampNorm (sphericalToAmplitudes ⟨θ, φ⟩) = 1 := by
    rw [ampNorm, hA, hB, Real.cos_sq_add_sin_sq, Real.sqrt_one]
  rw [amplitudesToSpherical, if_neg (by rw [hN]; exact one_ne_zero), hA, hN]
  simp only [SphericalCoordinates.mk.injEq]
  constructor
  · rw [div_one, max_eq_right hc.le, min_eq_right (Real.cos_le_one _),
      Real.arccos_cos (by linarith) (by linarith [Real.pi_pos])]
    ring
  · simp only [sphericalToAmplitudes]
    have hap : atan2 0 (Real.cos (θ / 2)) = 0 := by
      unfold atan2
      rw [Complex.ofReal_zero, zero_mul, add_zero]
      exact Complex.arg_ofReal_of_nonneg hc.le
    rw [hap, sub_zero]
    exact normalizePhi_atan2_scaled (Real.sin (θ / 2)) φ hs hφ0 hφ2

/-- Witness for C2 at theta = π/2, phi = π. -/
theorem amplitude_spherical_roundtrip_witness :
    amplitudesToSpherical (sphericalToAmplitudes ⟨π / 2, π⟩) = ⟨π / 2, π⟩ :=
  amplitude_spherical_roundtrip (π / 2) π (by positivity)
    (by linarith [Real.pi_pos]) Real.pi_nonneg (by linarith [Real.pi_pos])

/-- The canonical ranges of `SphericalCoordinates`: theta in [0, π] and
phi in [0, 2π). -/
def InCanonicalRange (c : SphericalCoordinates) : Prop :=
  0 ≤ c.theta ∧ c.theta ≤ π ∧ 0 ≤ c.phi ∧ c.phi < 2 * π

/-- The phi-normalization lands in [0, 2π) whenever its input lies in
(-2π, 2π), as it does at both call sites. -/
theorem normalizePhi_range (p : ℝ) (h1 : -(2 * π) < p) (h2 : p < 2 * π) :
    0 ≤ normalizePhi p ∧ normalizePhi p < 2 * π := by
  unfold normalizePhi
  split_ifs with h
  · constructor <;> linarith
  · exact ⟨not_lt.mp h, h2⟩

/-- The model of `Math.atan2` has range (-π, π]. -/
theorem atan2_range (y x : ℝ) : -π < atan2 y x ∧ atan2 y x ≤ π :=
  ⟨Complex.neg_pi_lt_arg _, Complex.arg_le_pi _⟩

/-- Every output of `cartesianToSpherical` is in the canonical ranges. -/
theorem cartesianToSpherical_inRange (v : CartesianCoordinates) :
    InCanonicalRange (cartesianToSpherical v) := by
  unfold cartesianToSpherical
  split_ifs with h
  · exact ⟨le_rfl, Real.pi_nonneg, le_rfl, Real.two_pi_pos⟩
  · simp only [InCanonicalRange]
    refine ⟨Real.arccos_nonneg _, Real.arccos_le_pi _, ?_, ?_⟩
    · exact (normalizePhi_range _ (by linarith [(atan2_range v.y v.x).1,
        Real.pi_pos]) (by linarith [(atan2_range v.y v.x).2, Real.pi_pos])).1
    · exact (normalizePhi_range _ (by linarith [(atan2_range v.y v.x).1,
        Real.pi_pos]) (by linarith [(atan2_range v.y v.x).2, Real.pi_pos])).2

/-- Every output of `amplitudesToSpherical` is in the canonical ranges. -/
theorem amplitudesToSpherical_inRange (amp : ComplexAmplitude) :
    InCanonicalRange (amplitudesToSpherical amp) := by
  unfold amplitudesToSpherical
  split_ifs with h
  · exact ⟨le_rfl, Real.pi_nonneg, le_rfl, Real.two_pi_pos⟩
  · have hclamp : 0 ≤ min 1 (max 0 (alphaMag amp / ampNorm amp)) :=
      le_min zero_le_one (le_max_left 0 _)
    have hbp := atan2_range amp.beta.imag amp.beta.real
    have hap := atan2_range amp.alpha.imag amp.alpha.real
    simp only [InCanonicalRange]
    refine ⟨mul_nonneg (by norm_num) (Real.arccos_nonneg _), ?_, ?_, ?_⟩
    · have := Real.arccos_le_pi_div_two.mpr hclamp
      linarith
    · exact (normalizePhi_range _ (by linarith) (by linarith)).1
    · exact (normalizePhi_range _ (by linarith) (by linarith)).2

/-- For canonical inputs and t in [0, 1], `slerp` stays in the canonical
ranges: the fallback branch is a convex combination of the endpoint angles,
and the main branch routes through `cartesianToSpherical`. -/
theorem slerp_inRange (s e : SphericalCoordinates) (t : ℝ)
    (hs : InCanonicalRange s) (he : InCanonicalRange e)
    (ht0 : 0 ≤ t) (ht1 : t ≤ 1) : InCanonicalRange (slerp s e t) := by
  obtain ⟨hs1, hs2, hs3, hs4⟩ := hs
  obtain ⟨he1, he2, he3, he4⟩ := he
  unfold slerp
  split_ifs with h
  · simp only [InCanonicalRange]
    refine ⟨?_, ?_, ?_, ?_⟩
    · nlinarith [mul_nonneg (sub_nonneg.mpr ht1) hs1, mul_nonneg ht0 he1]
    · nlinarith [mul_nonneg (sub_nonneg.mpr ht1) (sub_nonneg.mpr hs2),
        mul_nonneg ht0 (sub_nonneg.mpr he2)]
    · nlinarith [mul_nonneg (sub_nonneg.mpr ht1) hs3, mul_nonneg ht0 he3]
    · rcases eq_or_lt_of_le ht1 with h1 | h1
      · have hrw : s.phi + t * (e.phi - s.phi) = e.phi := by rw [h1]; ring
        rw [hrw]; exact he4
      · nlinarith [mul_pos (sub_pos.mpr h1) (sub_pos.mpr hs4),
          mul_nonneg ht0 (sub_pos.mpr he4).le]
  · exact cartesianToSpherical_inRange _

/-- C7: every producer of `SphericalCoordinates` returns values in the
canonical ranges theta in [0, π] and phi in [0, 2π):
`amplitudesToSpherical` and `cartesianToSpherical` for every input, and
`slerp` for canonical inputs with t in [0, 1]. -/
theorem spherical_producers_canonical :
    (∀ amp, InCanonicalRange (amplitudesToSpherical amp)) ∧
      (∀ v, InCanonicalRange (cartesianToSpherical v)) ∧
      (∀ s e t, InCanonicalRange s → InCanonicalRange e → 0 ≤ t → t ≤ 1 →
        InCanonicalRange (slerp s e t)) :=
  ⟨amplitudesToSpherical_inRange, cartesianToSpherical_inRange, slerp_inRange⟩

/-- Witness for C7: the slerp part applied at the north pole with t = 0. -/
theorem spherical_producers_canonical_witness :
    InCanonicalRange ⟨0, 0⟩ ∧ (0 : ℝ) ≤ 0 ∧ (0 : ℝ) ≤ 1 ∧
      InCanonicalRange (slerp ⟨0, 0⟩ ⟨0, 0⟩ 0) := by
  have hin : InCanonicalRange ⟨0, 0⟩ :=
    ⟨le_rfl, Real.pi_nonneg, le_rfl, Real.two_pi_pos⟩
  exact ⟨hin, le_rfl, zero_le_one,
    spherical_producers_canonical.2.2 ⟨0, 0⟩ ⟨0, 0⟩ 0 hin hin le_rfl zero_le_one⟩

/-- Scaling both components of a complex pair by a positive real leaves the
modelled `atan2` unchanged. -/
theorem atan2_pos_scale (c y x : ℝ) (hc : 0 < c) :
    atan2 (c * y) (c * x) = atan2 y x := by
  unfold atan2
  have hmk : (↑(c * x) + ↑(c * y) * Complex.I) =
      (c : ℂ) * (↑x + ↑y * Complex.I) := by push_cast; ring
  rw [hmk, Complex.arg_real_mul _ hc]

/-- C9: `amplitudesToSpherical` is invariant under positive real rescaling
of the state, exactly in the real-number model: magnitudes and the norm all
scale by c, so the normalized magnitude is unchanged, and `atan2` is
invariant under positive scaling of both arguments. -/
theorem amplitudesToSpherical_scale_invariant (amp : ComplexAmplitude)
    (c : ℝ) (hc : 0 < c) :
    amplitudesToSpherical
        ⟨⟨c * amp.alpha.real, c * amp.alpha.imag⟩,
         ⟨c * amp.beta.real, c * amp.beta.imag⟩⟩ =
      amplitudesToSpherical amp := by
  set amp2 : ComplexAmplitude :=
    ⟨⟨c * amp.alpha.real, c * amp.alpha.imag⟩,
     ⟨c * amp.beta.real, c * amp.beta.imag⟩⟩ with hamp2
  have hA : alphaMag amp2 = c * alphaMag amp := by
    simp only [alphaMag, hamp2]
    rw [show (c * amp.alpha.real) ^ 2 + (c * amp.alpha.imag) ^ 2 =
        c ^ 2 * (amp.alpha.real ^ 2 + amp.alpha.imag ^ 2) by ring,
      Real.sqrt_mul (sq_nonneg c), Real.sqrt_sq hc.le]
  have hB : betaMag amp2 = c * betaMag amp := by
    simp only [betaMag, hamp2]
    rw [show (c * amp.beta.real) ^ 2 + (c * amp.beta.imag) ^ 2 =
        c ^ 2 * (amp.beta.real ^ 2 + amp.beta.imag ^ 2) by ring,
      Real.sqrt_mul (sq_nonneg c), Real.sqrt_sq hc.le]
  have hN : ampNorm amp2 = c * ampNorm amp := by
    rw [ampNorm, hA, hB, show (c * alphaMag amp) ^ 2 + (c * betaMag amp) ^ 2 =
        c ^ 2 * (alphaMag amp ^ 2 + betaMag amp ^ 2) by ring,
      Real.sqrt_mul (sq_nonneg c), Real.sqrt_sq hc.le, ampNorm]
  unfold amplitudesToSpherical
  by_cases h0 : ampNorm amp = 0
  · rw [if_pos h0, if_pos (by rw [hN, h0, mul_zero])]
  · rw [if_neg h0, if_neg (by rw [hN]; exact mul_ne_zero hc.ne' h0)]
    have hdiv : alphaMag amp2 / ampNorm amp2 = alphaMag amp / ampNorm amp := by
      rw [hA, hN, mul_div_mul_left _ _ hc.ne']
    rw [hdiv]
    simp only [hamp2, atan2_pos_scale _ _ _ hc]

/-- Witness for C9 at the |0> state scaled by 2. -/
theorem amplitudesToSpherical_scale_invariant_witness :
    (0 : ℝ) < 2 ∧
      amplitudesToSpherical ⟨⟨2 * 1, 2 * 0⟩, ⟨2 * 0, 2 * 0⟩⟩ =
        amplitudesToSpherical ⟨⟨1, 0⟩, ⟨0, 0⟩⟩ :=
  ⟨by norm_num,
    amplitudesToSpherical_scale_invariant ⟨⟨1, 0⟩, ⟨0, 0⟩⟩ 2 (by norm_num)⟩

/-- The slerp dot product of a point with itself is 1 (the Cartesian image
is a unit vector). -/
theorem slerpDot_self (p : SphericalCoordinates) : slerpDot p p = 1 := by
  have h := normSq_sphericalToCartesian p
  rw [slerpDot]
  linear_combination h

/-- The slerp angle between a point and itself is 0. -/
theorem slerpOmega_self (p : SphericalCoordinates) : slerpOmega p p = 0 := by
  rw [slerpOmega, slerpDot_self, min_self,
    max_eq_right (by norm_num : (-1 : ℝ) ≤ 1), Real.arccos_one]

/-- Coincident points always take the fallback branch. -/
theorem slerpUsesFallback_self (p : SphericalCoordinates) :
    slerpUsesFallback p p := by
  rw [slerpUsesFallback, slerpOmega_self, abs_zero]
  norm_num

/-- Outside the fallback branch, with non-antipodal clamped dot product, the
slerp angle lies strictly inside (0, π), so its sine is positive (the
division by sin omega is well defined). -/
theorem slerpOmega_pos_lt_pi (s e : SphericalCoordinates)
    (hdot : -1 < slerpDot s e) (hnf : ¬ slerpUsesFallback s e) :
    0 < slerpOmega s e ∧ slerpOmega s e < π := by
  constructor
  · have habs := not_lt.mp (by simpa [slerpUsesFallback] using hnf)
    have h0 : 0 ≤ slerpOmega s e := Real.arccos_nonneg _
    rw [abs_of_nonneg h0] at habs
    calc (0 : ℝ) < 0.0001 := by norm_num
    _ ≤ slerpOmega s e := habs
  · have hx : -1 < max (-1) (min 1 (slerpDot s e)) := by
      rcases le_or_lt (slerpDot s e) 1 with hle | hlt
      · rw [min_eq_right hle]
        exact lt_max_of_lt_right hdot
      · rw [min_eq_left hlt.le]
        exact lt_max_of_lt_right (by norm_num)
    refine lt_of_le_of_ne (Real.arccos_le_pi _) fun heq => ?_
    exact absurd (Real.arccos_eq_pi.mp heq) (not_le.mpr hx)

/-- Dot product of the quarter pair: the Cartesian images of (π/2, 0) and
(π/2, π/2) are orthogonal. -/
theorem quarter_dot : slerpDot ⟨π / 2, 0⟩ ⟨π / 2, π / 2⟩ = 0 := by
  norm_num [slerpDot, sphericalToCartesian, Real.sin_pi_div_two,
    Real.cos_pi_div_two]

/-- The slerp angle of the quarter pair is π/2. -/
theorem quarter_omega : slerpOmega ⟨π / 2, 0⟩ ⟨π / 2, π / 2⟩ = π / 2 := by
  rw [slerpOmega, quarter_dot, min_eq_right zero_le_one,
    max_eq_right (by norm_num : (-1 : ℝ) ≤ 0), Real.arccos_zero]

/-- The quarter pair does not take the fallback branch. -/
theorem quarter_no_fallback :
    ¬ slerpUsesFallback ⟨π / 2, 0⟩ ⟨π / 2, π / 2⟩ := by
  rw [slerpUsesFallback, quarter_omega, abs_of_nonneg (by positivity)]
  exact not_lt.mpr (by linarith [Real.pi_gt_three])

/-- Dot product of the Cartesian images of the antipodal pair (π/2, 0) and
(π/2, π): the |+> and |-> states. -/
theorem antipodal_dot : slerpDot ⟨π / 2, 0⟩ ⟨π / 2, π⟩ = -1 := by
  norm_num [slerpDot, sphericalToCartesian, Real.sin_pi_div_two,
    Real.cos_pi_div_two, Real.cos_pi, Real.sin_pi]

/-- When the clamped dot product is -1 (antipodal images), omega is π and
the fallback guard `|omega| < 1e-4` is false. -/
theorem no_fallback_of_dot_neg_one (s e : SphericalCoordinates)
    (h : slerpDot s e = -1) : ¬ slerpUsesFallback s e := by
  rw [slerpUsesFallback, slerpOmega, h,
    min_eq_right (by norm_num : (-1 : ℝ) ≤ 1), max_self,
    Real.arccos_neg_one, abs_of_nonneg Real.pi_nonneg]
  exact not_lt.mpr (by linarith [Real.pi_gt_three])

/-- Counterexample to C5 as frozen: the antipodal pair |+> = (π/2, 0) and
|-> = (π/2, π) has Cartesian dot product -1, yet the fallback branch is NOT
taken (omega = π, and |π| < 1e-4 is false), contradicting the claim that
antipodally degenerate inputs take the fallback. -/
theorem slerp_antipodal_fallback_counterexample :
    slerpDot ⟨π / 2, 0⟩ ⟨π / 2, π⟩ = -1 ∧
      ¬ slerpUsesFallback ⟨π / 2, 0⟩ ⟨π / 2, π⟩ :=
  ⟨antipodal_dot, no_fallback_of_dot_neg_one _ _ antipodal_dot⟩

/-- C5 (amended): the fallback branch is taken exactly when
`omega < 1e-4`, i.e. when the two Cartesian images are nearly coincident;
coincident points always take it; antipodal points (dot = -1) never do —
there the main branch runs and, in the real model, sin(omega) = sin π = 0,
so the claimed protection does not extend to the antipodal case; away from
the antipodal case the division by sin(omega) outside the fallback is by a
strictly positive quantity. -/
theorem slerp_fallback_characterization :
    (∀ s e : SphericalCoordinates,
        slerpUsesFallback s e ↔ slerpOmega s e < 0.0001) ∧
      (∀ p : SphericalCoordinates, slerpUsesFallback p p) ∧
      (∀ s e : SphericalCoordinates,
        slerpDot s e = -1 → ¬ slerpUsesFallback s e) ∧
      (∀ s e : SphericalCoordinates, -1 < slerpDot s e →
        ¬ slerpUsesFallback s e → 0 < Real.sin (slerpOmega s e)) := by
  refine ⟨fun s e => ?_, slerpUsesFallback_self, no_fallback_of_dot_neg_one,
    fun s e hdot hnf => ?_⟩
  · have h0 : 0 ≤ slerpOmega s e := Real.arccos_nonneg _
    rw [slerpUsesFallback, abs_of_nonneg h0]
  · obtain ⟨h0, hπ⟩ := slerpOmega_pos_lt_pi s e hdot hnf
    exact Real.sin_pos_of_pos_of_lt_pi h0 hπ

/-- Witness for C5: the antipodal pair refuses the fallback, the coincident
north pole takes it, and the quarter pair has positive sin(omega). -/
theorem slerp_fallback_characterization_witness :
    slerpUsesFallback ⟨0, 0⟩ ⟨0, 0⟩ ∧
      (slerpDot ⟨π / 2, 0⟩ ⟨π / 2, π⟩ = -1 ∧
        ¬ slerpUsesFallback ⟨π / 2, 0⟩ ⟨π / 2, π⟩) ∧
      ((-1 : ℝ) < slerpDot ⟨π / 2, 0⟩ ⟨π / 2, π / 2⟩ ∧
        0 < Real.sin (slerpOmega ⟨π / 2, 0⟩ ⟨π / 2, π / 2⟩)) := by
  have hd : (-1 : ℝ) < slerpDot ⟨π / 2, 0⟩ ⟨π / 2, π / 2⟩ := by
    rw [quarter_dot]; norm_num
  exact ⟨slerp_fallback_characterization.2.1 _,
    ⟨antipodal_dot,
      slerp_fallback_characterization.2.2.1 _ _ antipodal_dot⟩,
    hd, slerp_fallback_characterization.2.2.2 _ _ hd quarter_no_fallback⟩

/-- Mirrors the `EasingFunction` union type. -/
inductive EasingFunction
  | linear
  | easeIn
  | easeOut
  | easeInOut

/-- Mirrors the `easingFunctions` record of `quantum-math.ts`. -/
noncomputable def easingFunctions : EasingFunction → ℝ → ℝ
  | .linear => fun t => t
  | .easeIn => fun t => t * t
  | .easeOut => fun t => t * (2 - t)
  | .easeInOut => fun t =>
      if t < 0.5 then 2 * t * t else -1 + (4 - 2 * t) * t

/-- Events the animation driver signals to the external caller
(`onStart` / `onEnd` in `useAnimation`). -/
inductive AnimEvent
  | animationStart
  | animationEnd
deriving DecidableEq

/-- State of the `useAnimation` hook: the React state `currentState` and
the refs `startStateRef`, `prevTargetRef`, `isFirstRender`, `startTimeRef`.
The pending `requestAnimationFrame` callback of the current animation is
modelled by `animPending` together with `generation`: each newly scheduled
animation gets a fresh generation number, and `cancelAnimationFrame` is
modelled by bumping `generation` so that the superseded callback (which
carries the old generation) is never invoked. -/
structure DriverState where
  currentState : SphericalCoordinates
  startState : SphericalCoordinates
  prevTarget : SphericalCoordinates
  isFirstRender : Bool
  generation : ℕ
  animPending : Bool
  startTime : Option ℝ

/-- Mirrors the body of the `useEffect` in `useAnimation`, run when a new
`targetState` arrives: skip on first render; no-op if the target did not
change (by theta or phi); if animation is disabled, jump immediately (the
effect cleanup cancels any pending frame — generation bump); otherwise
cancel any ongoing animation (generation bump), capture the current
(possibly mid-flight) state as the start state, reset the start time, fire
the animation-start event and schedule the first frame. -/
noncomputable def receiveTarget (s : DriverState)
    (targetState : SphericalCoordinates) (enabled : Bool) :
    DriverState × List AnimEvent :=
  if s.isFirstRender then
    ({ s with
        isFirstRender := false
        currentState := targetState
        prevTarget := targetState }, [])
  else if ¬ (s.prevTarget.theta ≠ targetState.theta ∨
      s.prevTarget.phi ≠ targetState.phi) then
    (s, [])
  else if enabled = false then
    ({ s with
        prevTarget := targetState
        currentState := targetState
        generation := s.generation + 1
        animPending := false }, [])
  else
    ({ s with
        prevTarget := targetState
        generation := s.generation + 1
        animPending := true
        startState := s.currentState
        startTime := none }, [AnimEvent.animationStart])

/-- Mirrors the `animate` frame callback: a callback scheduled for
generation `gen` only runs if it was not cancelled (its generation is still
current and a frame is pending); it records the start timestamp on its
first invocation, computes eased progress, interpolates with `slerp` from
the captured start state toward the tracked target, and on completion
clears the pending frame and fires the animation-end event. -/
noncomputable def animate (s : DriverState) (gen : ℕ) (duration : ℝ)
    (easing : EasingFunction) (timestamp : ℝ) :
    DriverState × List AnimEvent :=
  if gen ≠ s.generation ∨ s.animPending = false then (s, [])
  else
    if min ((timestamp - s.startTime.getD timestamp) / duration) 1 < 1 then
      ({ s with
          currentState := slerp s.startState s.prevTarget
            (easingFunctions easing
              (min ((timestamp - s.startTime.getD timestamp) / duration) 1))
          startTime := some (s.startTime.getD timestamp) }, [])
    else
      ({ s with
          currentState := slerp s.startState s.prevTarget
            (easingFunctions easing
              (min ((timestamp - s.startTime.getD timestamp) / duration) 1))
          startTime := some (s.startTime.getD timestamp)
          animPending := false }, [AnimEvent.animationEnd])

/-- C4: when an animation toward target A is in flight (a frame is pending
for the current generation) and a differing target B arrives with
animation enabled, the driver: emits exactly one animation-start event and
no end event; captures the current mid-flight interpolated state (not A's
original start point) as the start point of B's interpolation; tracks B;
cancels A's pending frame, so a callback carrying A's generation never
runs again — A's trajectory is never completed and A's end event never
fires; and B's first frame interpolates from the captured mid-flight state
toward B. -/
theorem supersede_cancels_and_restarts (s : DriverState)
    (B : SphericalCoordinates)
    (hFirst : s.isFirstRender = false)
    (hPending : s.animPending = true)
    (hDiff : s.prevTarget.theta ≠ B.theta ∨ s.prevTarget.phi ≠ B.phi) :
    (receiveTarget s B true).2 = [AnimEvent.animationStart] ∧
      (receiveTarget s B true).1.startState = s.currentState ∧
      (receiveTarget s B true).1.prevTarget = B ∧
      (∀ duration easing timestamp,
        animate (receiveTarget s B true).1 s.generation duration easing
            timestamp = ((receiveTarget s B true).1, [])) ∧
      (∀ duration easing timestamp,
        (animate (receiveTarget s B true).1
            (receiveTarget s B true).1.generation duration easing
            timestamp).1.currentState =
          slerp s.currentState B (easingFunctions easing 0)) := by
  have hrt : receiveTarget s B true =
      ({ s with
          prevTarget := B
          generation := s.generation + 1
          animPending := true
          startState := s.currentState
          startTime := none }, [AnimEvent.animationStart]) := by
    rw [receiveTarget, if_neg (by rw [hFirst]; exact Bool.false_ne_true),
      if_neg (not_not_intro hDiff), if_neg (by simp)]
  refine ⟨by rw [hrt], by rw [hrt], by rw [hrt], fun duration easing ts => ?_,
    fun duration easing ts => ?_⟩
  · rw [hrt]
    dsimp only
    rw [animate, if_pos (Or.inl (Nat.ne_of_lt (Nat.lt_succ_self _)))]
  · rw [hrt]
    dsimp only
    rw [animate, if_neg (by simp)]
    simp only [Option.getD_none, sub_self, zero_div]
    rw [show min (0 : ℝ) 1 = 0 from min_eq_left zero_le_one,
      if_pos (by norm_num : (0 : ℝ) < 1)]

/-- Witness for C4 from a concrete mid-flight state receiving target
(1, 0) while tracking (0, 0). -/
theorem supersede_cancels_and_restarts_witness :
    (DriverState.mk ⟨0, 0⟩ ⟨0, 0⟩ ⟨0, 0⟩ false 0 true none).isFirstRender
        = false ∧
      (DriverState.mk ⟨0, 0⟩ ⟨0, 0⟩ ⟨0, 0⟩ false 0 true
          none).animPending = true ∧
      ((DriverState.mk ⟨0, 0⟩ ⟨0, 0⟩ ⟨0, 0⟩ false 0 true
          none).prevTarget.theta ≠
        (SphericalCoordinates.mk 1 0).theta ∨
        (DriverState.mk ⟨0, 0⟩ ⟨0, 0⟩ ⟨0, 0⟩ false 0 true
            none).prevTarget.phi ≠ (SphericalCoordinates.mk 1 0).phi) ∧
      (receiveTarget (DriverState.mk ⟨0, 0⟩ ⟨0, 0⟩ ⟨0, 0⟩ false 0 true none)
          ⟨1, 0⟩ true).2 = [AnimEvent.animationStart] := by
  have hDiff : (DriverState.mk ⟨0, 0⟩ ⟨0, 0⟩ ⟨0, 0⟩ false 0 true
      none).prevTarget.theta ≠ (SphericalCoordinates.mk 1 0).theta ∨
      (DriverState.mk ⟨0, 0⟩ ⟨0, 0⟩ ⟨0, 0⟩ false 0 true
          none).prevTarget.phi ≠ (SphericalCoordinates.mk 1 0).phi := by
    left
    show (0 : ℝ) ≠ 1
    norm_num
  exact ⟨rfl, rfl, hDiff,
    (supersede_cancels_and_restarts
      (DriverState.mk ⟨0, 0⟩ ⟨0, 0⟩ ⟨0, 0⟩ false 0 true none) ⟨1, 0⟩ rfl rfl
      hDiff).1⟩

end QuantumMath
